import Mathlib

/-!
# concurrent-scraper: a shallow embedding of `main.go`

The development models the four functions of `main.go`:

* `fetchWithRetry` (lines 24-47): the bounded retry loop around `client.Get`;
* `scrapePage` (lines 49-82): fetch, parse, extract, send on the channel;
* the dispatch part of `main` (lines 100-134): trim, split on commas, spawn;
* the concurrent part of `main` (lines 116-140): the scraper goroutines, the
  collector goroutine and the main goroutine, as a step relation.

The HTTP client and the HTML parser are external libraries; they are inputs
of the model (an oracle giving the outcome of the i-th `client.Get`, a parse
function from a body to a document or an error).
-/

namespace Scraper

/-! ## Strings

A Go string is modelled by a Lean `String`, its runes by the characters; the
input is taken to be valid UTF-8, on which the two agree. -/

/-- Go `unicode.IsSpace`: the white space characters of `strings.TrimSpace`. -/
def isSpace (c : Char) : Bool :=
  let n := c.toNat
  n == 0x09 || n == 0x0A || n == 0x0B || n == 0x0C || n == 0x0D || n == 0x20 ||
  n == 0x85 || n == 0xA0 || n == 0x1680 || (0x2000 ≤ n && n ≤ 0x200A) ||
  n == 0x2028 || n == 0x2029 || n == 0x202F || n == 0x205F || n == 0x3000

/-- Go `strings.TrimLeftFunc(s, unicode.IsSpace)` on the characters of a string. -/
def trimLeft (cs : List Char) : List Char := cs.dropWhile isSpace

/-- Go `strings.TrimRightFunc(s, unicode.IsSpace)` on the characters of a string. -/
def trimRight (cs : List Char) : List Char := (cs.reverse.dropWhile isSpace).reverse

/-- Go `strings.TrimSpace`: leading and trailing white space removed. -/
def trimSpace (s : String) : String := ⟨trimRight (trimLeft s.data)⟩

/-- Go `strings.Split(s, ",")` on the characters of a string: the substrings
between the commas, one more than there are commas. -/
def splitCommaChars : List Char → List (List Char)
  | [] => [[]]
  | c :: cs =>
    if c = ',' then [] :: splitCommaChars cs
    else
      match splitCommaChars cs with
      | [] => [[c]]
      | seg :: segs => (c :: seg) :: segs

/-- Go `strings.Split(s, ",")`. -/
def splitComma (s : String) : List String := (splitCommaChars s.data).map String.mk

/-! ## The HTTP client -/

/-- The part of `*http.Response` the program reads: the status code and the body. -/
structure Response where
  statusCode : Nat
  body : String
deriving DecidableEq, Repr

/-- The result `(resp, err)` of one `client.Get(url)`: a transport error
(`err != nil`, `resp == nil`) or a response (`err == nil`). -/
inductive Outcome where
  | transportError (cause : String)
  | response (resp : Response)
deriving DecidableEq, Repr

/-- The test of line 34: `err == nil && resp.StatusCode == http.StatusOK`. -/
def Outcome.isOK : Outcome → Bool
  | .transportError _ => false
  | .response resp => resp.statusCode == 200

/-- The `err` variable after an attempt: `nil` when a response came back. -/
def Outcome.err : Outcome → Option String
  | .transportError cause => some cause
  | .response _ => none

/-- The record sent on the channel (lines 17-22). -/
structure ScrapeResult where
  url : String
  title : String
  description : String
  headers : List String
deriving DecidableEq, Repr

/-- What a scraper goroutine does, in order. `get i url out` is the i-th
`client.Get(url)` with its outcome; a response body is named by the number of
the attempt that acquired it; `send` is `ch <- result`, `wgDone` the deferred
`wg.Done()`. -/
inductive Event where
  | get (i : Nat) (url : String) (out : Outcome)
  | logLine (line : String)
  | closeBody (i : Nat)
  | sleep (seconds : Nat)
  | send (result : ScrapeResult)
  | wgDone
deriving DecidableEq, Repr

/-- The verb `%v` of `fmt` applied to an `error`: its message, `<nil>` for `nil`. -/
def fmtV : Option String → String
  | none => "<nil>"
  | some msg => msg

/-- The line of `log.Printf("Attempt %d failed for %s: %v", i, url, err)`. -/
def attemptLine (i : Nat) (url : String) (err : Option String) : String :=
  "Attempt " ++ toString i ++ " failed for " ++ url ++ ": " ++ fmtV err

/-- The pair returned by `fetchWithRetry`: `return resp, nil` (line 35), with the
attempt whose body the response carries, or `return nil, err` (line 46), with
the message of the error. -/
inductive FetchReturn where
  | success (attempt : Nat) (resp : Response)
  | failure (message : String)
deriving DecidableEq, Repr

/-- Lines 38-44, after an attempt that failed: log the attempt, close the body
when there is a response, sleep 2 seconds. -/
def failedAttemptEvents (i : Nat) (url : String) : Outcome → List Event
  | .transportError cause =>
    [.logLine (attemptLine i url (some cause)), .sleep 2]
  | .response _ =>
    [.logLine (attemptLine i url none), .closeBody i, .sleep 2]

/-- The value of line 46: `fmt.Errorf("failed after 3 retries: %v", err)`. -/
def terminalError (err : Option String) : String :=
  "failed after 3 retries: " ++ fmtV err

/-- The loop `for i := 1; i <= 3; i++` of `fetchWithRetry` (lines 32-45) and the
return after it (line 46). `remaining` is the number of iterations left, so
that `i + remaining = 4` and the loop test `i <= 3` is `remaining ≠ 0`; `err`
is the variable `err` as the last attempt left it. -/
def fetchLoop (url : String) (client : Nat → Outcome) :
    Nat → Nat → Option String → FetchReturn × List Event
  | 0, _, err => (.failure (terminalError err), [])
  | remaining + 1, i, _ =>
    match client i with
    | .response resp =>
      if resp.statusCode = 200 then
        (.success i resp, [.get i url (.response resp)])
      else
        let rest := fetchLoop url client remaining (i + 1) none
        (rest.1, .get i url (.response resp) ::
          failedAttemptEvents i url (.response resp) ++ rest.2)
    | .transportError cause =>
      let rest := fetchLoop url client remaining (i + 1) (some cause)
      (rest.1, .get i url (.transportError cause) ::
        failedAttemptEvents i url (.transportError cause) ++ rest.2)

/-- The function `fetchWithRetry(url)` (lines 25-47): the value returned and the
events, `client i` being the outcome of the i-th `client.Get(url)`. -/
def fetchWithRetry (url : String) (client : Nat → Outcome) : FetchReturn × List Event :=
  fetchLoop url client 3 1 none

/-- The attempts made: the numbers of the `client.Get` events, in order. -/
def attemptsOf : List Event → List Nat
  | [] => []
  | .get i _ _ :: es => i :: attemptsOf es
  | _ :: es => attemptsOf es

/-- The backoff waits: the durations of the `time.Sleep` events, in order. -/
def sleepsOf : List Event → List Nat
  | [] => []
  | .sleep s :: es => s :: sleepsOf es
  | _ :: es => sleepsOf es

/-- The records sent on the channel, in order. -/
def sendsOf : List Event → List ScrapeResult
  | [] => []
  | .send r :: es => r :: sendsOf es
  | _ :: es => sendsOf es

/-- The bodies open after the events, `opened` being those open before: a
`client.Get` that yields a response acquires its body, `Body.Close()` releases it. -/
def openBodies : List Event → List Nat → List Nat
  | [], opened => opened
  | .get i _ (.response _) :: es, opened => openBodies es (opened ++ [i])
  | .closeBody i :: es, opened => openBodies es (opened.filter (fun j => j != i))
  | _ :: es, opened => openBodies es opened

/-! ## The document and the extraction -/

/-- An element of the parsed document, as the queries of `scrapePage` see it:
its tag, its attributes, and its text (the text of the element and of its
descendants, what `Selection.Text` gives for it). -/
structure Element where
  tag : String
  attrs : List (String × String)
  text : String
deriving DecidableEq, Repr

/-- A parsed document: its elements in document order. -/
abbrev Document := List Element

/-- The selection `doc.Find(tag)` for a tag selector: the elements of that
tag, in document order. -/
def findTag (doc : Document) (tag : String) : List Element :=
  doc.filter (fun e => e.tag == tag)

/-- The selection `doc.Find("meta[name='description']")`: the `meta` elements
with an attribute `name` whose value is `description`. -/
def findMetaDescription (doc : Document) : List Element :=
  doc.filter (fun e => e.tag == "meta" &&
    e.attrs.any (fun kv => kv.1 == "name" && kv.2 == "description"))

/-- The method `Selection.Text()`: the combined text of the selected elements. -/
def selectionText (sel : List Element) : String :=
  String.join (sel.map (fun e => e.text))

/-- The method `Selection.Attr(name)`: the value of the attribute for the first
element of the selection and whether it exists. -/
def selectionAttr (sel : List Element) (name : String) : String × Bool :=
  match sel with
  | [] => ("", false)
  | e :: _ =>
    match e.attrs.find? (fun kv => kv.1 == name) with
    | some kv => (kv.2, true)
    | none => ("", false)

/-- Lines 68-74: the loop `doc.Find("h1").Each(...)` appending to `headers`. -/
def extractHeaders (doc : Document) : List String :=
  (findTag doc "h1").foldl
    (fun headers s =>
      let text := trimSpace s.text
      if text ≠ "" then headers ++ [text] else headers)
    []

/-- Lines 65-81: the record built from the document. -/
def extract (url : String) (doc : Document) : ScrapeResult :=
  { url := url
    title := trimSpace (selectionText (findTag doc "title"))
    description := (selectionAttr (findMetaDescription doc) "content").1
    headers := extractHeaders doc }

/-- The function `scrapePage(url, wg, ch)` (lines 49-82): its events, the fetch
included; `parse` is `goquery.NewDocumentFromReader` on the body. The
deferred calls run last, `resp.Body.Close()` before `wg.Done()`. -/
def scrapePage (url : String) (client : Nat → Outcome)
    (parse : String → Except String Document) : List Event :=
  let fetched := fetchWithRetry url client
  match fetched.1 with
  | .failure err =>
    fetched.2 ++ [.logLine ("Skipping " ++ url ++ ": " ++ err), .wgDone]
  | .success attempt resp =>
    match parse resp.body with
    | .error err =>
      fetched.2 ++
        [.logLine ("Failed to parse " ++ url ++ ": " ++ err), .closeBody attempt, .wgDone]
    | .ok doc =>
      fetched.2 ++ [.send (extract url doc), .closeBody attempt, .wgDone]

/-! ## The input line and the dispatch -/

/-- Lines 100-105 of `main`: the line read is trimmed; an empty one is fatal
(`log.Fatal`), otherwise it is split on commas. -/
def readURLs (line : String) : Except String (List String) :=
  let input := trimSpace line
  if input = "" then .error "No URLs provided, exiting."
  else .ok (splitComma input)

/-- Lines 131-134 of `main`: the URL given to the scraper goroutine launched for
each element of `urls`, in order. -/
def dispatchedURLs (urls : List String) : List String :=
  urls.map trimSpace

/-! ## The goroutines of `main` -/

/-- Where the collector goroutine (lines 122-128) stands: blocked on the
receive of `range ch`, holding a received record it has not appended yet
(before `mu.Lock()`), or past the loop, the channel being closed. -/
inductive CollectorPc where
  | receiving
  | holding (result : ScrapeResult)
  | exited
deriving DecidableEq, Repr

/-- Where the main goroutine stands: in the loop of lines 131-134 and then at
`wg.Wait()` (line 136), at `close(ch)` (line 137), at the call of
`writeResultsToJSONFile(results, ...)` (line 140), or past it. -/
inductive MainPc where
  | dispatch
  | close
  | write
  | finished
deriving DecidableEq, Repr

/-- The state of the program from line 116 on. `pending` holds the elements of
`urls` the loop has not reached, `tasks` the events each scraper goroutine has
still to do, `wg` the counter of the WaitGroup, `results` the slice of that
name, `written` the slice `writeResultsToJSONFile` was given, once called. -/
structure Sys where
  mainPc : MainPc
  pending : List String
  tasks : List (List Event)
  wg : Nat
  chClosed : Bool
  collector : CollectorPc
  results : List ScrapeResult
  written : Option (List ScrapeResult)
deriving DecidableEq, Repr

/-- The goroutine that takes the next step. -/
inductive Actor where
  | main
  | collector
  | task (k : Nat)
deriving DecidableEq, Repr

/-- The state at line 130: the collector is started, no scraper yet. -/
def Sys.init (urls : List String) : Sys :=
  { mainPc := .dispatch, pending := urls, tasks := [], wg := 0, chClosed := false,
    collector := .receiving, results := [], written := none }

/-- One step of the main goroutine: launch the scraper of the next URL
(`wg.Add(1)` and the `go` statement); return from `wg.Wait()`, which needs
the counter at zero; `close(ch)`; read `results` for the writer. -/
def stepMain (server : String → Nat → Outcome) (parse : String → Except String Document)
    (s : Sys) : Option Sys :=
  match s.mainPc with
  | .dispatch =>
    match s.pending with
    | url :: rest =>
      some { s with
        pending := rest
        wg := s.wg + 1
        tasks := s.tasks ++ [scrapePage (trimSpace url) (server (trimSpace url)) parse] }
    | [] => if s.wg = 0 then some { s with mainPc := .close } else none
  | .close => some { s with mainPc := .write, chClosed := true }
  | .write => some { s with mainPc := .finished, written := some s.results }
  | .finished => none

/-- One step of the collector goroutine: append the record it holds
(`mu.Lock()`, `append`, `mu.Unlock()`, no other goroutine takes `mu`) and go
back to the receive; leave the loop when the channel is closed. The receive
itself is the step of the sender, the channel being unbuffered. -/
def stepCollector (s : Sys) : Option Sys :=
  match s.collector with
  | .holding r => some { s with collector := .receiving, results := s.results ++ [r] }
  | .receiving => if s.chClosed then some { s with collector := .exited } else none
  | .exited => none

/-- One step of scraper goroutine `k`: its next event. A send needs the
collector at its receive, and hands the record over (a send on the closed
channel, a panic in Go, is no step: `run_inv` shows that no scraper is left
when main closes the channel); `wg.Done()` decrements the counter; the other
events touch nothing shared. A scraper that has ended cannot move. -/
def stepTask (k : Nat) (s : Sys) : Option Sys :=
  match s.tasks[k]? with
  | none => none
  | some [] => none
  | some (.send r :: es) =>
    if s.collector = .receiving ∧ s.chClosed = false then
      some { s with tasks := s.tasks.set k es, collector := .holding r }
    else none
  | some (.wgDone :: es) => some { s with tasks := s.tasks.set k es, wg := s.wg - 1 }
  | some (_ :: es) => some { s with tasks := s.tasks.set k es }

/-- One step of the program, by the given goroutine; `none` when it cannot move. -/
def step (server : String → Nat → Outcome) (parse : String → Except String Document)
    (a : Actor) (s : Sys) : Option Sys :=
  match a with
  | .main => stepMain server parse s
  | .collector => stepCollector s
  | .task k => stepTask k s

/-- The state after the steps of a schedule, `none` when one of them cannot be taken. -/
def run (server : String → Nat → Outcome) (parse : String → Except String Document) :
    List Actor → Sys → Option Sys
  | [], s => some s
  | a :: as, s =>
    match step server parse a s with
    | some t => run server parse as t
    | none => none

/-- The records the scrapers of a batch send, in the order of the URLs. -/
def emittedBy (server : String → Nat → Outcome) (parse : String → Except String Document)
    (urls : List String) : List ScrapeResult :=
  (dispatchedURLs urls).flatMap (fun url => sendsOf (scrapePage url (server url) parse))

/-- The collector loop run to its end on the records in their order of arrival
(lines 123-127): the slice `results` it leaves. -/
def collect (arrivals : List ScrapeResult) : List ScrapeResult :=
  arrivals.foldl (fun results result => results ++ [result]) []

/-- The record the collector has received and not appended yet. -/
def CollectorPc.held : CollectorPc → List ScrapeResult
  | .holding r => [r]
  | .receiving => []
  | .exited => []

/-- The records of the program, wherever they are: appended to `results`, held
by the collector, still to be sent by a launched scraper, or to be sent by a
scraper not launched yet. -/
def inFlight (server : String → Nat → Outcome) (parse : String → Except String Document)
    (s : Sys) : List ScrapeResult :=
  s.results ++ s.collector.held ++ s.tasks.flatMap sendsOf ++ emittedBy server parse s.pending

/-- The calls of `wg.Done()` that the launched scrapers have still to make. -/
def donesLeft (tasks : List (List Event)) : Nat :=
  (tasks.map (fun t => t.count .wgDone)).sum

/-- What holds of every state the program reaches from `Sys.init urls`: no record
is lost or duplicated; a scraper that has not ended ends with `wg.Done()`; the
counter of the WaitGroup is the number of calls of `wg.Done()` to come; once
main is past `wg.Wait()` every scraper is launched and has ended; the slice
handed to the writer is a prefix of `results` and lacks at most one of the
records sent. -/
structure Inv (server : String → Nat → Outcome) (parse : String → Except String Document)
    (urls : List String) (s : Sys) : Prop where
  conserve : (inFlight server parse s).Perm (emittedBy server parse urls)
  ends : ∀ t ∈ s.tasks, t = [] ∨ t.getLast? = some .wgDone
  counter : s.wg = donesLeft s.tasks
  drained : s.mainPc ≠ .dispatch → s.pending = [] ∧ ∀ t ∈ s.tasks, t = []
  read : ∀ w, s.written = some w →
    s.mainPc = .finished ∧ w <+: s.results ∧
      (emittedBy server parse urls).length ≤ w.length + 1

/-! ## Concrete servers and parsers -/

/-- A server that answers every request with status 500. -/
def alwaysNon200 : Nat → Outcome := fun _ => .response ⟨500, "oops"⟩

/-- A server that answers every request with status 404. -/
def alwaysNotFound : Nat → Outcome := fun _ => .response ⟨404, ""⟩

/-- A server whose first request times out and whose later ones answer 200. -/
def recoversOnSecond : Nat → Outcome := fun i =>
  if i = 1 then .transportError "timeout" else .response ⟨200, "<title>Example</title>"⟩

/-- A server that cannot be reached. -/
def unreachable : Nat → Outcome := fun _ => .transportError "connection refused"

/-- The message of the error that `client.Get(url)` returns when the transport
fails, a `*url.Error`: `Get "<url>": <cause>`. -/
def getError (url cause : String) : String :=
  "Get \"" ++ url ++ "\": " ++ cause

/-- A server that refuses every connection to the URL. -/
def refusing (url : String) : Nat → Outcome := fun _ =>
  .transportError (getError url "dial tcp 127.0.0.1:80: connect: connection refused")

/-- A parser that makes of the body the text of a single title element. -/
def parseAsTitle : String → Except String Document :=
  fun body => .ok [⟨"title", [], body⟩]

/-- A parser that rejects every body. -/
def parseFails : String → Except String Document :=
  fun _ => .error "not markup"

/-- A document with a title, a description, and two `h1` elements, one of them
without text. -/
def exampleDoc : Document :=
  [⟨"title", [], "Example"⟩,
    ⟨"meta", [("name", "description"), ("content", "A sample page")], ""⟩,
    ⟨"h1", [], "  Hello  "⟩,
    ⟨"h1", [], ""⟩]

/-- A parser that makes `exampleDoc` of every body. -/
def parseExample : String → Except String Document :=
  fun _ => .ok exampleDoc

/-- A parser that makes of every body a document with neither title nor `meta`. -/
def parseBare : String → Except String Document :=
  fun _ => .ok [⟨"p", [], "text"⟩]

/-- A document whose title has white space around its text. -/
def paddedDoc : Document :=
  [⟨"title", [], "  Example \n"⟩,
    ⟨"meta", [("name", "description"), ("content", "A sample page")], ""⟩]

/-- A parser that makes `paddedDoc` of every body. -/
def parsePadded : String → Except String Document :=
  fun _ => .ok paddedDoc

/-- A document with two title elements and two `meta` elements named
`description`, the first of them without a `content` attribute. -/
def twoTitlesDoc : Document :=
  [⟨"title", [], "One "⟩,
    ⟨"meta", [("name", "description")], ""⟩,
    ⟨"title", [], "Two"⟩,
    ⟨"meta", [("name", "description"), ("content", "later")], ""⟩]

/-- A parser that makes `twoTitlesDoc` of every body. -/
def parseTwoTitles : String → Except String Document :=
  fun _ => .ok twoTitlesDoc

/-- A batch server: the URL `b` always answers 500, every other URL answers 200
with the URL as body. -/
def batchServer : String → Nat → Outcome := fun url _ =>
  if url = "b" then .response ⟨500, ""⟩ else .response ⟨200, url⟩

/-- A schedule for the batch `a,b,c`: the three scrapers are launched, the one of
`b` runs to its end (3 attempts, no record), the one of `a` sends its record,
which the collector appends, and ends; the one of `c` sends its record and
ends; main returns from `wg.Wait()`, closes the channel and reads `results`;
only then does the collector append the record of `c` and leave its loop. -/
def lateCollectorSchedule : List Actor :=
  [.main, .main, .main] ++ List.replicate 14 (.task 1) ++
    [.task 0, .task 0, .collector, .task 0, .task 0] ++
    [.task 2, .task 2, .task 2, .task 2] ++
    [.main, .main, .main, .collector, .collector]

/-- The same schedule with the collector appending the record of `c` before
main reads `results`. -/
def promptCollectorSchedule : List Actor :=
  [.main, .main, .main] ++ List.replicate 14 (.task 1) ++
    [.task 0, .task 0, .collector, .task 0, .task 0] ++
    [.task 2, .task 2, .task 2, .task 2] ++
    [.collector, .main, .main, .main, .collector]

/-- A schedule for the batch `a,c` in which the scraper of `c` completes first,
that of `a` second, and the collector appends both records before main reads. -/
def secondFirstSchedule : List Actor :=
  [.main, .main, .task 1, .task 1, .collector, .task 1, .task 1,
    .task 0, .task 0, .collector, .task 0, .task 0, .main, .main, .main, .collector]

/-- A schedule for the batch `a,c` in which the scraper of `a` completes first,
that of `c` second, and main reads `results` before the collector has
appended the record of `c`. -/
def firstFirstLateSchedule : List Actor :=
  [.main, .main, .task 0, .task 0, .collector, .task 0, .task 0,
    .task 1, .task 1, .task 1, .task 1, .main, .main, .main, .collector, .collector]

end Scraper

namespace Scraper

/-! ## The fetch loop: one iteration -/

theorem fetchLoop_zero (url : String) (client : Nat → Outcome) (i : Nat) (err : Option String) :
    fetchLoop url client 0 i err = (.failure (terminalError err), []) := rfl

theorem fetchLoop_ok (url : String) (client : Nat → Outcome) (remaining i : Nat)
    (err : Option String) (resp : Response)
    (hget : client i = .response resp) (hstatus : resp.statusCode = 200) :
    fetchLoop url client (remaining + 1) i err =
      (.success i resp, [.get i url (.response resp)]) := by
  simp [fetchLoop, hget, hstatus]

theorem fetchLoop_failed (url : String) (client : Nat → Outcome) (remaining i : Nat)
    (err : Option String) (hfail : (client i).isOK = false) :
    fetchLoop url client (remaining + 1) i err =
      ((fetchLoop url client remaining (i + 1) (client i).err).1,
        .get i url (client i) :: failedAttemptEvents i url (client i) ++
          (fetchLoop url client remaining (i + 1) (client i).err).2) := by
  cases hget : client i with
  | transportError cause => simp [fetchLoop, hget, Outcome.err]
  | response resp =>
    have hne : ¬ resp.statusCode = 200 := by
      simpa [Outcome.isOK, hget] using hfail
    simp [fetchLoop, hget, hne, Outcome.err]

theorem isOK_iff (out : Outcome) :
    out.isOK = true ↔ ∃ resp, out = .response resp ∧ resp.statusCode = 200 := by
  cases out <;> simp [Outcome.isOK]

theorem attemptsOf_append (xs ys : List Event) :
    attemptsOf (xs ++ ys) = attemptsOf xs ++ attemptsOf ys := by
  induction xs with
  | nil => rfl
  | cons e es ih => cases e <;> simp [attemptsOf, ih]

theorem attemptsOf_failedAttemptEvents (i : Nat) (url : String) (out : Outcome) :
    attemptsOf (failedAttemptEvents i url out) = [] := by
  cases out <;> rfl

theorem sleepsOf_append (xs ys : List Event) :
    sleepsOf (xs ++ ys) = sleepsOf xs ++ sleepsOf ys := by
  induction xs with
  | nil => rfl
  | cons e es ih => cases e <;> simp [sleepsOf, ih]

theorem sendsOf_append (xs ys : List Event) :
    sendsOf (xs ++ ys) = sendsOf xs ++ sendsOf ys := by
  induction xs with
  | nil => rfl
  | cons e es ih => cases e <;> simp [sendsOf, ih]

theorem openBodies_append (xs ys : List Event) (opened : List Nat) :
    openBodies (xs ++ ys) opened = openBodies ys (openBodies xs opened) := by
  induction xs generalizing opened with
  | nil => rfl
  | cons e es ih =>
    cases e with
    | get i u out => cases out <;> simp [openBodies, ih]
    | _ => simp [openBodies, ih]

/-- The attempts of the loop entered at attempt `i` with `remaining` iterations
left are `i, i+1, ...`, at most `remaining` of them. -/
theorem attemptsOf_fetchLoop (url : String) (client : Nat → Outcome) (remaining i : Nat)
    (err : Option String) :
    ∃ n, n ≤ remaining ∧
      attemptsOf (fetchLoop url client remaining i err).2 = List.range' i n := by
  induction remaining generalizing i err with
  | zero => exact ⟨0, le_refl 0, rfl⟩
  | succ rem ih =>
    cases hok : (client i).isOK with
    | true =>
      obtain ⟨resp, hget, hstatus⟩ := (isOK_iff _).1 hok
      refine ⟨1, by omega, ?_⟩
      rw [fetchLoop_ok url client rem i err resp hget hstatus]
      rfl
    | false =>
      obtain ⟨n, hn, hrest⟩ := ih (i + 1) (client i).err
      refine ⟨n + 1, by omega, ?_⟩
      rw [fetchLoop_failed url client rem i err hok]
      simp [attemptsOf, attemptsOf_append, attemptsOf_failedAttemptEvents, hrest,
        List.range'_succ]

/-- The fetch succeeds at attempt `k` with response `resp` exactly when `k` is
the first of the attempts 1, 2, 3 with no transport error and status 200. -/
theorem fetchWithRetry_success_iff (url : String) (client : Nat → Outcome)
    (k : Nat) (resp : Response) :
    (fetchWithRetry url client).1 = .success k resp ↔
      (1 ≤ k ∧ k ≤ 3 ∧ client k = .response resp ∧ resp.statusCode = 200 ∧
        ∀ j, 1 ≤ j → j < k → (client j).isOK = false) := by
  unfold fetchWithRetry
  cases h1 : (client 1).isOK with
  | true =>
    obtain ⟨r1, hg1, hs1⟩ := (isOK_iff _).1 h1
    rw [fetchLoop_ok url client 2 1 none r1 hg1 hs1]
    constructor
    · intro h
      simp only [FetchReturn.success.injEq] at h
      obtain ⟨rfl, rfl⟩ := h
      exact ⟨le_refl 1, by omega, hg1, hs1, fun j h1j hj => by omega⟩
    · rintro ⟨hk1, _, hg, _, hall⟩
      have hk : k = 1 := by
        by_contra hne
        have := hall 1 (le_refl 1) (by omega)
        simp [h1] at this
      subst hk
      rw [hg1] at hg
      simp only [Outcome.response.injEq] at hg
      simp [hg]
  | false =>
    rw [fetchLoop_failed url client 2 1 none h1]
    cases h2 : (client 2).isOK with
    | true =>
      obtain ⟨r2, hg2, hs2⟩ := (isOK_iff _).1 h2
      have h2eq : (1 : Nat) + 1 = 2 := rfl
      rw [h2eq, fetchLoop_ok url client 1 2 _ r2 hg2 hs2]
      constructor
      · intro h
        simp only [FetchReturn.success.injEq] at h
        obtain ⟨rfl, rfl⟩ := h
        refine ⟨by omega, by omega, hg2, hs2, fun j h1j hj => ?_⟩
        have : j = 1 := by omega
        subst this
        exact h1
      · rintro ⟨hk1, hk3, hg, hs, hall⟩
        have hk : k = 2 := by
          by_contra hne
          rcases (by omega : k = 1 ∨ k = 3) with rfl | rfl
          · have : (client 1).isOK = true := (isOK_iff _).2 ⟨resp, hg, hs⟩
            simp [h1] at this
          · have := hall 2 (by omega) (by omega)
            simp [h2] at this
        subst hk
        rw [hg2] at hg
        simp only [Outcome.response.injEq] at hg
        simp [hg]
    | false =>
      have h2eq : (1 : Nat) + 1 = 2 := rfl
      rw [h2eq, fetchLoop_failed url client 1 2 _ h2]
      cases h3 : (client 3).isOK with
      | true =>
        obtain ⟨r3, hg3, hs3⟩ := (isOK_iff _).1 h3
        have h3eq : (2 : Nat) + 1 = 3 := rfl
        rw [h3eq, fetchLoop_ok url client 0 3 _ r3 hg3 hs3]
        constructor
        · intro h
          simp only [FetchReturn.success.injEq] at h
          obtain ⟨rfl, rfl⟩ := h
          refine ⟨by omega, by omega, hg3, hs3, fun j h1j hj => ?_⟩
          rcases (by omega : j = 1 ∨ j = 2) with rfl | rfl
          · exact h1
          · exact h2
        · rintro ⟨hk1, hk3, hg, hs, hall⟩
          have hok : (client k).isOK = true := (isOK_iff _).2 ⟨resp, hg, hs⟩
          have hk : k = 3 := by
            by_contra hne
            rcases (by omega : k = 1 ∨ k = 2) with rfl | rfl
            · simp [h1] at hok
            · simp [h2] at hok
          subst hk
          rw [hg3] at hg
          simp only [Outcome.response.injEq] at hg
          simp [hg]
      | false =>
        have h3eq : (2 : Nat) + 1 = 3 := rfl
        rw [h3eq, fetchLoop_failed url client 0 3 _ h3, fetchLoop_zero]
        constructor
        · intro h
          simp at h
        · rintro ⟨hk1, hk3, hg, hs, _⟩
          have hok : (client k).isOK = true := (isOK_iff _).2 ⟨resp, hg, hs⟩
          rcases (by omega : k = 1 ∨ k = 2 ∨ k = 3) with rfl | rfl | rfl
          · simp [h1] at hok
          · simp [h2] at hok
          · simp [h3] at hok

/-- When the attempts 1, 2, 3 all fail, the fetch returns the terminal error
made from the `err` of the third attempt, after exactly these three attempts. -/
theorem fetchWithRetry_all_failed (url : String) (client : Nat → Outcome)
    (hall : ∀ j, 1 ≤ j → j ≤ 3 → (client j).isOK = false) :
    (fetchWithRetry url client).1 = .failure (terminalError (client 3).err) ∧
      attemptsOf (fetchWithRetry url client).2 = [1, 2, 3] ∧
      sleepsOf (fetchWithRetry url client).2 = [2, 2, 2] := by
  have h1 := hall 1 (by omega) (by omega)
  have h2 := hall 2 (by omega) (by omega)
  have h3 := hall 3 (by omega) (by omega)
  unfold fetchWithRetry
  rw [fetchLoop_failed url client 2 1 none h1]
  have h2eq : (1 : Nat) + 1 = 2 := rfl
  have h3eq : (2 : Nat) + 1 = 3 := rfl
  rw [h2eq, fetchLoop_failed url client 1 2 _ h2, h3eq,
    fetchLoop_failed url client 0 3 _ h3, fetchLoop_zero]
  refine ⟨rfl, ?_, ?_⟩
  · simp [attemptsOf, attemptsOf_append, attemptsOf_failedAttemptEvents]
  · cases client 1 <;> cases client 2 <;> cases client 3 <;>
      simp [sleepsOf, failedAttemptEvents]

/-- The attempts made by a fetch that succeeds at attempt `k` are `1, ..., k`. -/
theorem attemptsOf_success (url : String) (client : Nat → Outcome) (k : Nat) (resp : Response)
    (h : (fetchWithRetry url client).1 = .success k resp) :
    attemptsOf (fetchWithRetry url client).2 = List.range' 1 k := by
  obtain ⟨hk1, hk3, hg, hs, hall⟩ := (fetchWithRetry_success_iff url client k resp).1 h
  have h2eq : (1 : Nat) + 1 = 2 := rfl
  have h3eq : (2 : Nat) + 1 = 3 := rfl
  unfold fetchWithRetry
  rcases (by omega : k = 1 ∨ k = 2 ∨ k = 3) with rfl | rfl | rfl
  · rw [fetchLoop_ok url client 2 1 none resp hg hs]
    rfl
  · rw [fetchLoop_failed url client 2 1 none (hall 1 (by omega) (by omega)), h2eq,
      fetchLoop_ok url client 1 2 _ resp hg hs]
    simp [attemptsOf, attemptsOf_append, attemptsOf_failedAttemptEvents]
    rfl
  · rw [fetchLoop_failed url client 2 1 none (hall 1 (by omega) (by omega)), h2eq,
      fetchLoop_failed url client 1 2 _ (hall 2 (by omega) (by omega)), h3eq,
      fetchLoop_ok url client 0 3 _ resp hg hs]
    simp [attemptsOf, attemptsOf_append, attemptsOf_failedAttemptEvents]
    rfl

theorem sleepsOf_failedAttemptEvents (i : Nat) (url : String) (out : Outcome) :
    sleepsOf (failedAttemptEvents i url out) = [2] := by
  cases out <;> rfl

/-- A fetch that succeeds at attempt `k` has slept 2 seconds after each of the
`k - 1` attempts before it, and not after attempt `k`. -/
theorem sleepsOf_success (url : String) (client : Nat → Outcome) (k : Nat) (resp : Response)
    (h : (fetchWithRetry url client).1 = .success k resp) :
    sleepsOf (fetchWithRetry url client).2 = List.replicate (k - 1) 2 := by
  obtain ⟨hk1, hk3, hg, hs, hall⟩ := (fetchWithRetry_success_iff url client k resp).1 h
  have h2eq : (1 : Nat) + 1 = 2 := rfl
  have h3eq : (2 : Nat) + 1 = 3 := rfl
  unfold fetchWithRetry
  rcases (by omega : k = 1 ∨ k = 2 ∨ k = 3) with rfl | rfl | rfl
  · rw [fetchLoop_ok url client 2 1 none resp hg hs]
    rfl
  · rw [fetchLoop_failed url client 2 1 none (hall 1 (by omega) (by omega)), h2eq,
      fetchLoop_ok url client 1 2 _ resp hg hs]
    simp [sleepsOf, sleepsOf_append, sleepsOf_failedAttemptEvents]
  · rw [fetchLoop_failed url client 2 1 none (hall 1 (by omega) (by omega)), h2eq,
      fetchLoop_failed url client 1 2 _ (hall 2 (by omega) (by omega)), h3eq,
      fetchLoop_ok url client 0 3 _ resp hg hs]
    simp [sleepsOf, sleepsOf_append, sleepsOf_failedAttemptEvents]

/-- A fetch that returns an error has seen the attempts 1, 2, 3 all fail. -/
theorem fetchWithRetry_failure_imp (url : String) (client : Nat → Outcome) (msg : String)
    (h : (fetchWithRetry url client).1 = .failure msg) :
    ∀ j, 1 ≤ j → j ≤ 3 → (client j).isOK = false := by
  have first : ∀ k, 1 ≤ k → k ≤ 3 → (∀ j, 1 ≤ j → j < k → (client j).isOK = false) →
      (client k).isOK = false := by
    intro k hk1 hk3 hbefore
    cases hok : (client k).isOK with
    | false => rfl
    | true =>
      obtain ⟨resp, hg, hs⟩ := (isOK_iff _).1 hok
      have := (fetchWithRetry_success_iff url client k resp).2 ⟨hk1, hk3, hg, hs, hbefore⟩
      rw [this] at h
      cases h
  have h1 := first 1 (by omega) (by omega) (fun j h1j hj => by omega)
  have h2 := first 2 (by omega) (by omega) (fun j h1j hj => by
    have : j = 1 := by omega
    subst this
    exact h1)
  have h3 := first 3 (by omega) (by omega) (fun j h1j hj => by
    rcases (by omega : j = 1 ∨ j = 2) with rfl | rfl
    · exact h1
    · exact h2)
  intro j hj1 hj3
  rcases (by omega : j = 1 ∨ j = 2 ∨ j = 3) with rfl | rfl | rfl
  · exact h1
  · exact h2
  · exact h3

theorem no_get_in_failedAttemptEvents (i : Nat) (url : String) (out : Outcome)
    (j : Nat) (u : String) (o : Outcome) :
    Event.get j u o ∉ failedAttemptEvents i url out := by
  cases out <;> simp [failedAttemptEvents]

/-- A list that starts with events other than `g` is split at an occurrence of
`g` only after them. -/
theorem split_after_prefix (g : Event) (front : List Event) (hfront : g ∉ front)
    (rest pre post : List Event) (h : front ++ rest = pre ++ g :: post) :
    ∃ mid, pre = front ++ mid ∧ rest = mid ++ g :: post := by
  induction front generalizing pre with
  | nil => exact ⟨pre, rfl, h⟩
  | cons f fs ih =>
    cases pre with
    | nil =>
      simp only [List.cons_append, List.nil_append, List.cons.injEq] at h
      exact absurd (h.1 ▸ List.mem_cons_self f fs) hfront
    | cons q qs =>
      simp only [List.cons_append, List.cons.injEq] at h
      obtain ⟨mid, hmid, hrest⟩ := ih (fun hmem => hfront (List.mem_cons_of_mem _ hmem)) qs h.2
      exact ⟨mid, by simp [h.1, hmid], hrest⟩

theorem openBodies_failed_attempt (i : Nat) (url : String) (out : Outcome) :
    openBodies (.get i url out :: failedAttemptEvents i url out) [] = [] := by
  cases out <;> simp [openBodies, failedAttemptEvents]

/-- The bodies of the fetch loop: none is open when an attempt starts, none
after a return with an error, only the returned one after a success. -/
theorem openBodies_fetchLoop (url : String) (client : Nat → Outcome) (remaining i : Nat)
    (err : Option String) :
    (∀ pre j u o post,
        (fetchLoop url client remaining i err).2 = pre ++ .get j u o :: post →
        openBodies pre [] = []) ∧
      openBodies (fetchLoop url client remaining i err).2 [] =
        match (fetchLoop url client remaining i err).1 with
        | .success k _ => [k]
        | .failure _ => [] := by
  induction remaining generalizing i err with
  | zero =>
    refine ⟨fun pre j u o post h => ?_, rfl⟩
    simp [fetchLoop_zero] at h
  | succ rem ih =>
    cases hok : (client i).isOK with
    | true =>
      obtain ⟨resp, hget, hstatus⟩ := (isOK_iff _).1 hok
      rw [fetchLoop_ok url client rem i err resp hget hstatus]
      refine ⟨fun pre j u o post h => ?_, by simp [openBodies]⟩
      cases pre with
      | nil => rfl
      | cons q qs =>
        simp only [List.cons_append, List.cons.injEq] at h
        have := h.2
        simp at this
    | false =>
      rw [fetchLoop_failed url client rem i err hok]
      obtain ⟨ihsplit, ihend⟩ := ih (i + 1) (client i).err
      constructor
      · intro pre j u o post h
        cases pre with
        | nil => rfl
        | cons q qs =>
          simp only [List.cons_append, List.cons.injEq] at h
          obtain ⟨mid, hmid, hrest⟩ := split_after_prefix (.get j u o) _
            (no_get_in_failedAttemptEvents i url (client i) j u o) _ qs post h.2
          rw [← h.1, hmid, ← List.cons_append, openBodies_append,
            openBodies_failed_attempt]
          exact ihsplit mid j u o post hrest
      · dsimp only
        rw [openBodies_append, openBodies_failed_attempt]
        exact ihend

/-! ## The scraper goroutine -/

theorem sendsOf_failedAttemptEvents (i : Nat) (url : String) (out : Outcome) :
    sendsOf (failedAttemptEvents i url out) = [] := by
  cases out <;> rfl

/-- The fetch sends nothing on the channel. -/
theorem sendsOf_fetchLoop (url : String) (client : Nat → Outcome) (remaining i : Nat)
    (err : Option String) : sendsOf (fetchLoop url client remaining i err).2 = [] := by
  induction remaining generalizing i err with
  | zero => rfl
  | succ rem ih =>
    cases hok : (client i).isOK with
    | true =>
      obtain ⟨resp, hget, hstatus⟩ := (isOK_iff _).1 hok
      rw [fetchLoop_ok url client rem i err resp hget hstatus]
      rfl
    | false =>
      rw [fetchLoop_failed url client rem i err hok]
      simp [sendsOf, sendsOf_append, sendsOf_failedAttemptEvents, ih]

/-- The fetch does not touch the WaitGroup. -/
theorem wgDone_not_mem_fetchLoop (url : String) (client : Nat → Outcome) (remaining i : Nat)
    (err : Option String) : Event.wgDone ∉ (fetchLoop url client remaining i err).2 := by
  induction remaining generalizing i err with
  | zero => simp [fetchLoop_zero]
  | succ rem ih =>
    cases hok : (client i).isOK with
    | true =>
      obtain ⟨resp, hget, hstatus⟩ := (isOK_iff _).1 hok
      rw [fetchLoop_ok url client rem i err resp hget hstatus]
      simp
    | false =>
      rw [fetchLoop_failed url client rem i err hok]
      have := ih (i + 1) (client i).err
      cases client i <;> simp_all [failedAttemptEvents]

theorem scrapePage_failure (url : String) (client : Nat → Outcome)
    (parse : String → Except String Document) (msg : String)
    (hret : (fetchWithRetry url client).1 = .failure msg) :
    scrapePage url client parse =
      (fetchWithRetry url client).2 ++
        [.logLine ("Skipping " ++ url ++ ": " ++ msg), .wgDone] := by
  simp [scrapePage, hret]

theorem scrapePage_parse_error (url : String) (client : Nat → Outcome)
    (parse : String → Except String Document) (k : Nat) (resp : Response) (e : String)
    (hret : (fetchWithRetry url client).1 = .success k resp)
    (hparse : parse resp.body = .error e) :
    scrapePage url client parse =
      (fetchWithRetry url client).2 ++
        [.logLine ("Failed to parse " ++ url ++ ": " ++ e), .closeBody k, .wgDone] := by
  simp [scrapePage, hret, hparse]

theorem scrapePage_parsed (url : String) (client : Nat → Outcome)
    (parse : String → Except String Document) (k : Nat) (resp : Response) (doc : Document)
    (hret : (fetchWithRetry url client).1 = .success k resp)
    (hparse : parse resp.body = .ok doc) :
    scrapePage url client parse =
      (fetchWithRetry url client).2 ++ [.send (extract url doc), .closeBody k, .wgDone] := by
  simp [scrapePage, hret, hparse]

/-- What scrapePage sends: the record extracted when the fetch succeeds and the
body parses, nothing otherwise. -/
theorem sendsOf_scrapePage (url : String) (client : Nat → Outcome)
    (parse : String → Except String Document) :
    sendsOf (scrapePage url client parse) =
      match (fetchWithRetry url client).1 with
      | .failure _ => []
      | .success _ resp =>
        match parse resp.body with
        | .error _ => []
        | .ok doc => [extract url doc] := by
  have hfetch : sendsOf (fetchWithRetry url client).2 = [] :=
    sendsOf_fetchLoop url client 3 1 none
  cases hret : (fetchWithRetry url client).1 with
  | failure msg =>
    rw [scrapePage_failure url client parse msg hret]
    simp [sendsOf_append, hfetch, sendsOf]
  | success k resp =>
    cases hparse : parse resp.body with
    | error e =>
      rw [scrapePage_parse_error url client parse k resp e hret hparse]
      simp [sendsOf_append, hfetch, sendsOf, hparse]
    | ok doc =>
      rw [scrapePage_parsed url client parse k resp doc hret hparse]
      simp [sendsOf_append, hfetch, sendsOf, hparse]

/-- The deferred `wg.Done()` is the last event of scrapePage and its only one
on the WaitGroup. -/
theorem wgDone_scrapePage (url : String) (client : Nat → Outcome)
    (parse : String → Except String Document) :
    (scrapePage url client parse).getLast? = some .wgDone ∧
      (scrapePage url client parse).count .wgDone = 1 := by
  have hfetch : Event.wgDone ∉ (fetchWithRetry url client).2 :=
    wgDone_not_mem_fetchLoop url client 3 1 none
  have hzero : (fetchWithRetry url client).2.count .wgDone = 0 :=
    List.count_eq_zero_of_not_mem hfetch
  cases hret : (fetchWithRetry url client).1 with
  | failure msg =>
    rw [scrapePage_failure url client parse msg hret]
    simp [List.getLast?_append, List.count_append, hzero, List.count_cons]
  | success k resp =>
    cases hparse : parse resp.body with
    | error e =>
      rw [scrapePage_parse_error url client parse k resp e hret hparse]
      simp [List.getLast?_append, List.count_append, hzero, List.count_cons]
    | ok doc =>
      rw [scrapePage_parsed url client parse k resp doc hret hparse]
      simp [List.getLast?_append, List.count_append, hzero, List.count_cons]

/-! ## The extraction -/

theorem trimRight_eq (cs : List Char) : trimRight cs = cs.rdropWhile (fun c => isSpace c) := rfl

/-- A trimmed string does not start with white space. -/
theorem trimSpace_head (s : String) (c : Char)
    (h : (trimSpace s).data.head? = some c) : isSpace c = false := by
  have hpre : trimRight (trimLeft s.data) <+: trimLeft s.data := by
    rw [trimRight_eq]
    exact List.rdropWhile_prefix _ _
  obtain ⟨tail, htail⟩ := hpre
  have hdata : (trimSpace s).data = trimRight (trimLeft s.data) := rfl
  rw [hdata] at h
  have hhead : (trimLeft s.data).head? = some c := by
    rw [← htail]
    cases hxs : trimRight (trimLeft s.data) with
    | nil => simp [hxs] at h
    | cons x xs =>
      rw [hxs] at h
      simpa using h
  have := List.head?_dropWhile_not isSpace s.data
  unfold trimLeft at hhead
  rw [hhead] at this
  exact this

/-- A trimmed string does not end with white space. -/
theorem trimSpace_getLast (s : String) (c : Char)
    (h : (trimSpace s).data.getLast? = some c) : isSpace c = false := by
  have hdata : (trimSpace s).data = (trimLeft s.data).rdropWhile (fun c => isSpace c) := rfl
  rw [hdata] at h
  have hne : (trimLeft s.data).rdropWhile (fun c => isSpace c) ≠ [] := by
    intro hnil
    rw [hnil] at h
    simp at h
  have hnot := List.rdropWhile_last_not (fun c => isSpace c) (trimLeft s.data) hne
  rw [List.getLast?_eq_getLast _ hne] at h
  simp only [Option.some.injEq] at h
  rw [h] at hnot
  simpa using hnot

/-- The loop over the `h1` elements, started with `init` already in `headers`. -/
theorem foldl_headers (sel : List Element) (init : List String) :
    sel.foldl
        (fun headers s =>
          let text := trimSpace s.text
          if text ≠ "" then headers ++ [text] else headers)
        init =
      init ++ (sel.map (fun e => trimSpace e.text)).filter (fun t => t != "") := by
  induction sel generalizing init with
  | nil => simp
  | cons e es ih =>
    simp only [List.foldl_cons, List.map_cons]
    rw [ih]
    by_cases hempty : trimSpace e.text = ""
    · simp [hempty]
    · simp [hempty, List.filter_cons]

theorem extractHeaders_eq (doc : Document) :
    extractHeaders doc =
      ((findTag doc "h1").map (fun e => trimSpace e.text)).filter (fun t => t != "") := by
  unfold extractHeaders
  rw [foldl_headers]
  simp

/-- A record that scrapePage sends is the one extracted from the document parsed
from the body of a successful fetch. -/
theorem mem_sendsOf_scrapePage (url : String) (client : Nat → Outcome)
    (parse : String → Except String Document) (r : ScrapeResult)
    (h : r ∈ sendsOf (scrapePage url client parse)) :
    ∃ k resp doc, (fetchWithRetry url client).1 = .success k resp ∧
      parse resp.body = .ok doc ∧ r = extract url doc := by
  rw [sendsOf_scrapePage] at h
  cases hret : (fetchWithRetry url client).1 with
  | failure msg => simp [hret] at h
  | success k resp =>
    cases hparse : parse resp.body with
    | error e => simp [hret, hparse] at h
    | ok doc =>
      simp [hret, hparse] at h
      exact ⟨k, resp, doc, rfl, hparse, h⟩

theorem length_splitCommaChars (cs : List Char) :
    (splitCommaChars cs).length = cs.count ',' + 1 := by
  induction cs with
  | nil => rfl
  | cons c cs ih =>
    by_cases hc : c = ','
    · subst hc
      simp [splitCommaChars, ih]
    · have hne : (c == ',') = false := by simpa using hc
      cases hsplit : splitCommaChars cs with
      | nil => simp [hsplit] at ih
      | cons seg segs =>
        rw [hsplit] at ih
        simp [splitCommaChars, hc, hsplit, List.count_cons, hne] at ih ⊢
        omega

/-- The loop of lines 131-134, one step of main for each pending URL: every one
of them gets its scraper goroutine and its `wg.Add(1)`. -/
theorem run_dispatch (server : String → Nat → Outcome)
    (parse : String → Except String Document) (s : Sys) (hpc : s.mainPc = .dispatch) :
    ∃ t, run server parse (List.replicate s.pending.length .main) s = some t ∧
      t.mainPc = .dispatch ∧ t.pending = [] ∧ t.wg = s.wg + s.pending.length ∧
      t.tasks = s.tasks ++
        s.pending.map (fun u => scrapePage (trimSpace u) (server (trimSpace u)) parse) ∧
      t.collector = s.collector ∧ t.results = s.results ∧ t.chClosed = s.chClosed ∧
      t.written = s.written := by
  obtain ⟨pc, pending, tasks, wg, closed, coll, results, written⟩ := s
  simp only at hpc
  subst hpc
  induction pending generalizing tasks wg with
  | nil => exact ⟨_, rfl, rfl, rfl, rfl, by simp, rfl, rfl, rfl, rfl⟩
  | cons u us ih =>
    obtain ⟨t, hrun, hpc, hpend, hwg, htasks, hcoll, hres, hclosed, hwritten⟩ :=
      ih (tasks ++ [scrapePage (trimSpace u) (server (trimSpace u)) parse]) (wg + 1)
    refine ⟨t, ?_, hpc, hpend, ?_, ?_, hcoll, hres, hclosed, hwritten⟩
    · simpa [run, step, stepMain, List.replicate_succ] using hrun
    · simp only [List.length_cons] at hwg ⊢
      omega
    · simpa using htasks

/-- Trimming removes white space only: the string is its trimmed part between
a run of white space before and a run of white space after. -/
theorem trimSpace_decompose (s : String) :
    ∃ pre post, s.data = pre ++ (trimSpace s).data ++ post ∧
      (∀ c ∈ pre, isSpace c = true) ∧ (∀ c ∈ post, isSpace c = true) := by
  refine ⟨s.data.takeWhile isSpace, ((trimLeft s.data).reverse.takeWhile isSpace).reverse,
    ?_, fun c hc => List.mem_takeWhile_imp hc, fun c hc => ?_⟩
  · have hright : trimLeft s.data =
        trimRight (trimLeft s.data) ++
          ((trimLeft s.data).reverse.takeWhile isSpace).reverse := by
      have h := List.takeWhile_append_dropWhile isSpace (trimLeft s.data).reverse
      have h2 := congrArg List.reverse h
      simp only [List.reverse_append, List.reverse_reverse] at h2
      exact h2.symm
    have hleft : s.data = s.data.takeWhile isSpace ++ trimLeft s.data :=
      (List.takeWhile_append_dropWhile isSpace s.data).symm
    have hdata : (trimSpace s).data = trimRight (trimLeft s.data) := rfl
    rw [hdata, List.append_assoc, ← hright]
    exact hleft
  · exact List.mem_takeWhile_imp (List.mem_reverse.1 hc)

theorem selectionText_data (sel : List Element) :
    (selectionText sel).data = (sel.map (fun e => e.text.data)).flatten := by
  simp [selectionText, String.data_join, List.map_map, Function.comp_def]

/-- The test of the selector `meta[name='description']`. -/
theorem isMetaDescription_iff (e : Element) :
    (e.tag == "meta" && e.attrs.any (fun kv => kv.1 == "name" && kv.2 == "description")) = true ↔
      e.tag = "meta" ∧ ("name", "description") ∈ e.attrs := by
  simp only [Bool.and_eq_true, beq_iff_eq, List.any_eq_true, Prod.exists]
  constructor
  · rintro ⟨htag, a, b, hattr, ha, hb⟩
    subst ha
    subst hb
    exact ⟨htag, hattr⟩
  · rintro ⟨htag, hattr⟩
    exact ⟨htag, "name", "description", hattr, rfl, rfl⟩

/-- The selection of `meta[name='description']` starts with the first element of
the document that the selector matches. -/
theorem findMetaDescription_first (before after : List Element) (m : Element)
    (hm : m.tag = "meta" ∧ ("name", "description") ∈ m.attrs)
    (hbefore : ∀ e ∈ before, ¬ (e.tag = "meta" ∧ ("name", "description") ∈ e.attrs)) :
    findMetaDescription (before ++ m :: after) = m :: findMetaDescription after := by
  unfold findMetaDescription
  have hmatch := (isMetaDescription_iff m).2 hm
  rw [List.filter_append, List.filter_cons, if_pos hmatch]
  have hnone : before.filter (fun e => e.tag == "meta" &&
      e.attrs.any (fun kv => kv.1 == "name" && kv.2 == "description")) = [] := by
    rw [List.filter_eq_nil_iff]
    intro e he hmatch
    exact hbefore e he ((isMetaDescription_iff e).1 hmatch)
  rw [hnone]
  rfl

/-- C1: fetchWithRetry makes the attempts 1, 2, ... in order, at least one and
never more than 3; it stops at the first attempt with no transport error and
status 200 and returns that response with a nil error; when the attempts 1, 2,
3 all fail it makes exactly these 3 and returns a nil response with an error. -/
theorem fetchWithRetry_retry_contract (url : String) (client : Nat → Outcome) :
    (∃ n, 1 ≤ n ∧ n ≤ 3 ∧ attemptsOf (fetchWithRetry url client).2 = List.range' 1 n) ∧
    (∀ k resp, 1 ≤ k → k ≤ 3 → client k = .response resp → resp.statusCode = 200 →
      (∀ j, 1 ≤ j → j < k → (client j).isOK = false) →
      (fetchWithRetry url client).1 = .success k resp ∧
        attemptsOf (fetchWithRetry url client).2 = List.range' 1 k) ∧
    ((∀ j, 1 ≤ j → j ≤ 3 → (client j).isOK = false) →
      (∃ msg, (fetchWithRetry url client).1 = .failure msg) ∧
        attemptsOf (fetchWithRetry url client).2 = [1, 2, 3]) := by
  refine ⟨?_, ?_, ?_⟩
  · cases hret : (fetchWithRetry url client).1 with
    | success k resp =>
      obtain ⟨hk1, hk3, _⟩ := (fetchWithRetry_success_iff url client k resp).1 hret
      exact ⟨k, hk1, hk3, attemptsOf_success url client k resp hret⟩
    | failure msg =>
      have hall := fetchWithRetry_failure_imp url client msg hret
      exact ⟨3, by omega, le_refl 3, (fetchWithRetry_all_failed url client hall).2.1⟩
  · intro k resp hk1 hk3 hget hstatus hbefore
    have hret := (fetchWithRetry_success_iff url client k resp).2
      ⟨hk1, hk3, hget, hstatus, hbefore⟩
    exact ⟨hret, attemptsOf_success url client k resp hret⟩
  · intro hall
    obtain ⟨hret, hatt, _⟩ := fetchWithRetry_all_failed url client hall
    exact ⟨⟨_, hret⟩, hatt⟩

/-- C1, at two servers: one that always answers 500 is asked exactly 3 times
and the fetch fails; one that fails once and then answers 200 is asked exactly
2 times and the fetch returns the second response. -/
theorem fetchWithRetry_retry_contract_witness :
    ((∃ msg, (fetchWithRetry "http://example.com" alwaysNon200).1 = .failure msg) ∧
      attemptsOf (fetchWithRetry "http://example.com" alwaysNon200).2 = [1, 2, 3]) ∧
    ((fetchWithRetry "http://example.com" recoversOnSecond).1 =
        .success 2 ⟨200, "<title>Example</title>"⟩ ∧
      attemptsOf (fetchWithRetry "http://example.com" recoversOnSecond).2 =
        List.range' 1 2) :=
  ⟨(fetchWithRetry_retry_contract "http://example.com" alwaysNon200).2.2
      (fun _ _ _ => rfl),
    (fetchWithRetry_retry_contract "http://example.com" recoversOnSecond).2.1 2
      ⟨200, "<title>Example</title>"⟩ (by decide) (by decide) rfl rfl
      (fun j h1 h2 => by
        have : j = 1 := by omega
        subst this
        rfl)⟩

/-- C10: in every run of fetchWithRetry no response body is open when an
attempt starts (the body of each failed attempt that yielded a response has
been closed), none is open after a return with an error, and after a success
the only open body is that of the response returned. -/
theorem fetchWithRetry_closes_failed_bodies (url : String) (client : Nat → Outcome) :
    (∀ pre j u o post,
        (fetchWithRetry url client).2 = pre ++ .get j u o :: post →
        openBodies pre [] = []) ∧
    (∀ msg, (fetchWithRetry url client).1 = .failure msg →
        openBodies (fetchWithRetry url client).2 [] = []) ∧
    (∀ k resp, (fetchWithRetry url client).1 = .success k resp →
        openBodies (fetchWithRetry url client).2 [] = [k]) := by
  obtain ⟨hsplit, hend⟩ := openBodies_fetchLoop url client 3 1 none
  refine ⟨hsplit, fun msg hret => ?_, fun k resp hret => ?_⟩
  · unfold fetchWithRetry at hret ⊢
    rw [hend, hret]
  · unfold fetchWithRetry at hret ⊢
    rw [hend, hret]

/-- C10, at a server that always answers 500: each of the three bodies is closed
before the next attempt, and none is open when the fetch returns its error. -/
theorem fetchWithRetry_closes_failed_bodies_witness :
    openBodies
        [.get 1 "http://example.com" (.response ⟨500, "oops"⟩),
          .logLine "Attempt 1 failed for http://example.com: <nil>", .closeBody 1, .sleep 2]
        [] = [] ∧
      openBodies (fetchWithRetry "http://example.com" alwaysNon200).2 [] = [] :=
  ⟨(fetchWithRetry_closes_failed_bodies "http://example.com" alwaysNon200).1
      [.get 1 "http://example.com" (.response ⟨500, "oops"⟩),
        .logLine "Attempt 1 failed for http://example.com: <nil>", .closeBody 1, .sleep 2]
      2 "http://example.com" (.response ⟨500, "oops"⟩)
      [.logLine "Attempt 2 failed for http://example.com: <nil>", .closeBody 2, .sleep 2,
        .get 3 "http://example.com" (.response ⟨500, "oops"⟩),
        .logLine "Attempt 3 failed for http://example.com: <nil>", .closeBody 3, .sleep 2]
      (by decide),
    (fetchWithRetry_closes_failed_bodies "http://example.com" alwaysNon200).2.1
      "failed after 3 retries: <nil>" (by decide)⟩

/-- C2, at a server that always answers 500: the terminal error is
`failed after 3 retries: <nil>`; the URL does not occur in it and it says
nothing of the status, being the same for a server that always answers 404.
At a server that refuses the connection, the other way for the last attempt
to fail, the terminal error carries the error of `client.Get`, in which the
URL and the cause occur. -/
theorem terminalError_omits_url_and_status :
    (fetchWithRetry "http://example.com" alwaysNon200).1 =
        .failure "failed after 3 retries: <nil>" ∧
      ¬ ("http://example.com".data <:+: "failed after 3 retries: <nil>".data) ∧
      (fetchWithRetry "http://example.com" alwaysNotFound).1 =
        (fetchWithRetry "http://example.com" alwaysNon200).1 ∧
      (fetchWithRetry "http://example.com" (refusing "http://example.com")).1 =
        .failure ("failed after 3 retries: Get \"http://example.com\": " ++
          "dial tcp 127.0.0.1:80: connect: connection refused") ∧
      "http://example.com".data <:+:
        ("failed after 3 retries: Get \"http://example.com\": " ++
          "dial tcp 127.0.0.1:80: connect: connection refused").data ∧
      "connection refused".data <:+:
        ("failed after 3 retries: Get \"http://example.com\": " ++
          "dial tcp 127.0.0.1:80: connect: connection refused").data :=
  ⟨by decide, by decide, by decide, by decide,
    ⟨"failed after 3 retries: Get \"".data,
      "\": dial tcp 127.0.0.1:80: connect: connection refused".data, by decide⟩,
    ⟨"failed after 3 retries: Get \"http://example.com\": dial tcp 127.0.0.1:80: connect: ".data,
      [], by decide⟩⟩

/-- C9, at a server that always answers 500: the fetch makes the attempts 1, 2, 3
and sleeps 2 seconds three times, the third time after the final attempt, the
sleep being its last event. -/
theorem fetchWithRetry_sleeps_after_final_attempt :
    attemptsOf (fetchWithRetry "http://example.com" alwaysNon200).2 = [1, 2, 3] ∧
      sleepsOf (fetchWithRetry "http://example.com" alwaysNon200).2 = [2, 2, 2] ∧
      (fetchWithRetry "http://example.com" alwaysNon200).2.getLast? = some (.sleep 2) ∧
      (fetchWithRetry "http://example.com" alwaysNon200).1 =
        .failure "failed after 3 retries: <nil>" := by
  decide

/-- C3: scrapePage sends exactly one record if and only if one of the attempts 1,
2, 3 is the first with status 200 and no transport error and the body of its
response parses; it never sends more than one; the record sent has the URL
the task was given; after a terminal fetch error or a parse error nothing is
sent; in every case the task ends with its single `wg.Done()`. -/
theorem scrapePage_emits_iff_fetched_and_parsed (url : String) (client : Nat → Outcome)
    (parse : String → Except String Document) :
    ((∃ r, sendsOf (scrapePage url client parse) = [r]) ↔
      ∃ k resp doc, 1 ≤ k ∧ k ≤ 3 ∧ client k = .response resp ∧ resp.statusCode = 200 ∧
        (∀ j, 1 ≤ j → j < k → (client j).isOK = false) ∧ parse resp.body = .ok doc) ∧
    (sendsOf (scrapePage url client parse)).length ≤ 1 ∧
    (∀ r, r ∈ sendsOf (scrapePage url client parse) → r.url = url) ∧
    (∀ msg, (fetchWithRetry url client).1 = .failure msg →
      sendsOf (scrapePage url client parse) = []) ∧
    (∀ k resp e, (fetchWithRetry url client).1 = .success k resp →
      parse resp.body = .error e → sendsOf (scrapePage url client parse) = []) ∧
    (scrapePage url client parse).getLast? = some .wgDone ∧
    (scrapePage url client parse).count .wgDone = 1 := by
  refine ⟨⟨?_, ?_⟩, ?_, ?_, ?_, ?_, wgDone_scrapePage url client parse⟩
  · rintro ⟨r, hr⟩
    obtain ⟨k, resp, doc, hret, hparse, _⟩ :=
      mem_sendsOf_scrapePage url client parse r (by simp [hr])
    obtain ⟨hk1, hk3, hget, hstatus, hbefore⟩ :=
      (fetchWithRetry_success_iff url client k resp).1 hret
    exact ⟨k, resp, doc, hk1, hk3, hget, hstatus, hbefore, hparse⟩
  · rintro ⟨k, resp, doc, hk1, hk3, hget, hstatus, hbefore, hparse⟩
    have hret := (fetchWithRetry_success_iff url client k resp).2
      ⟨hk1, hk3, hget, hstatus, hbefore⟩
    exact ⟨extract url doc, by simp [sendsOf_scrapePage, hret, hparse]⟩
  · rw [sendsOf_scrapePage]
    cases hret : (fetchWithRetry url client).1 with
    | failure msg => simp
    | success k resp => cases hparse : parse resp.body <;> simp [hparse]
  · intro r hr
    obtain ⟨_, _, doc, _, _, hrec⟩ := mem_sendsOf_scrapePage url client parse r hr
    rw [hrec]
    rfl
  · intro msg hret
    simp [sendsOf_scrapePage, hret]
  · intro k resp e hret hparse
    simp [sendsOf_scrapePage, hret, hparse]

/-- C3, at a server that recovers on the second attempt: with a body that
parses one record is sent; with a body that does not parse none is. -/
theorem scrapePage_emits_iff_fetched_and_parsed_witness :
    (∃ r, sendsOf (scrapePage "http://example.com" recoversOnSecond parseExample) = [r]) ∧
      sendsOf (scrapePage "http://example.com" recoversOnSecond parseFails) = [] :=
  ⟨(scrapePage_emits_iff_fetched_and_parsed "http://example.com" recoversOnSecond
        parseExample).1.2
      ⟨2, ⟨200, "<title>Example</title>"⟩, exampleDoc, by decide, by decide, rfl, rfl,
        fun j h1 h2 => by
          have : j = 1 := by omega
          subst this
          rfl,
        rfl⟩,
    (scrapePage_emits_iff_fetched_and_parsed "http://example.com" recoversOnSecond
        parseFails).2.2.2.2.1 2 ⟨200, "<title>Example</title>"⟩ "not markup" (by decide) rfl⟩

/-- C6: the Headers of a record that scrapePage sends are the texts of the `h1`
elements of the parsed document, in document order, each trimmed, those empty
after trimming dropped; so no header is empty or starts or ends with white
space, the headers are a subsequence of the trimmed texts, and there are at
most as many as `h1` elements. -/
theorem headers_are_trimmed_nonempty_h1_texts (url : String) (client : Nat → Outcome)
    (parse : String → Except String Document) (r : ScrapeResult)
    (hsent : r ∈ sendsOf (scrapePage url client parse)) :
    ∃ k resp doc, (fetchWithRetry url client).1 = .success k resp ∧
      parse resp.body = .ok doc ∧
      r.headers =
        ((findTag doc "h1").map (fun e => trimSpace e.text)).filter (fun t => t != "") ∧
      (∀ h, h ∈ r.headers → h ≠ "" ∧
        (∀ c, h.data.head? = some c → isSpace c = false) ∧
        (∀ c, h.data.getLast? = some c → isSpace c = false)) ∧
      List.Sublist r.headers ((findTag doc "h1").map (fun e => trimSpace e.text)) ∧
      r.headers.length ≤ (findTag doc "h1").length := by
  obtain ⟨k, resp, doc, hret, hparse, hrec⟩ := mem_sendsOf_scrapePage url client parse r hsent
  have hheaders : r.headers =
      ((findTag doc "h1").map (fun e => trimSpace e.text)).filter (fun t => t != "") := by
    rw [hrec]
    exact extractHeaders_eq doc
  refine ⟨k, resp, doc, hret, hparse, hheaders, ?_, ?_, ?_⟩
  · intro h hmem
    rw [hheaders, List.mem_filter, List.mem_map] at hmem
    obtain ⟨⟨e, _, he⟩, hne⟩ := hmem
    refine ⟨by simpa using hne, ?_, ?_⟩
    · intro c hc
      rw [← he] at hc
      exact trimSpace_head e.text c hc
    · intro c hc
      rw [← he] at hc
      exact trimSpace_getLast e.text c hc
  · rw [hheaders]
    exact List.filter_sublist _
  · rw [hheaders]
    exact (List.length_filter_le _ _).trans (by simp)

/-- C6, at a document whose `h1` texts are `"  Hello  "` and `""`: the Headers
of the record sent are `["Hello"]`. -/
theorem headers_are_trimmed_nonempty_h1_texts_witness :
    extract "http://example.com" exampleDoc ∈
        sendsOf (scrapePage "http://example.com" recoversOnSecond parseExample) ∧
      (extract "http://example.com" exampleDoc).headers = ["Hello"] ∧
      ∃ k resp doc,
        (fetchWithRetry "http://example.com" recoversOnSecond).1 = .success k resp ∧
        parseExample resp.body = .ok doc ∧
        (extract "http://example.com" exampleDoc).headers =
          ((findTag doc "h1").map (fun e => trimSpace e.text)).filter (fun t => t != "") ∧
        (∀ h, h ∈ (extract "http://example.com" exampleDoc).headers → h ≠ "" ∧
          (∀ c, h.data.head? = some c → isSpace c = false) ∧
          (∀ c, h.data.getLast? = some c → isSpace c = false)) ∧
        List.Sublist (extract "http://example.com" exampleDoc).headers
          ((findTag doc "h1").map (fun e => trimSpace e.text)) ∧
        (extract "http://example.com" exampleDoc).headers.length ≤
          (findTag doc "h1").length :=
  ⟨by decide, by decide,
    headers_are_trimmed_nonempty_h1_texts "http://example.com" recoversOnSecond parseExample
      (extract "http://example.com" exampleDoc) (by decide)⟩

/-- C7: a fetch that succeeds with a body that parses sends its record, whatever
the document lacks. Its Title is the text of the title elements of the
document (of the title element, when there is one) with the white space
before and after removed and nothing else: that text is the Title between two
runs of white space, and the Title neither starts nor ends with white space;
it is empty when there is no title element. Its Description is empty when no
`meta` element has `name` equal to `description`; otherwise it is decided by
the first such element: the value of its first `content` attribute, empty when
it has none. -/
theorem title_and_description_extracted (url : String) (client : Nat → Outcome)
    (parse : String → Except String Document) (k : Nat) (resp : Response) (doc : Document)
    (hret : (fetchWithRetry url client).1 = .success k resp)
    (hparse : parse resp.body = .ok doc) :
    ∃ r, sendsOf (scrapePage url client parse) = [r] ∧
      (∃ pre post,
        ((doc.filter (fun e => e.tag == "title")).map (fun e => e.text.data)).flatten =
            pre ++ r.title.data ++ post ∧
          (∀ c ∈ pre, isSpace c = true) ∧ (∀ c ∈ post, isSpace c = true)) ∧
      (∀ c, r.title.data.head? = some c → isSpace c = false) ∧
      (∀ c, r.title.data.getLast? = some c → isSpace c = false) ∧
      ((∀ e ∈ doc, e.tag ≠ "title") → r.title = "") ∧
      ((∀ e ∈ doc, ¬ (e.tag = "meta" ∧ ("name", "description") ∈ e.attrs)) →
        r.description = "") ∧
      (∀ before m after, doc = before ++ m :: after →
        m.tag = "meta" → ("name", "description") ∈ m.attrs →
        (∀ e ∈ before, ¬ (e.tag = "meta" ∧ ("name", "description") ∈ e.attrs)) →
        ((∀ kv ∈ m.attrs, kv.1 ≠ "content") → r.description = "") ∧
        (∀ a1 v a2, m.attrs = a1 ++ ("content", v) :: a2 →
          (∀ kv ∈ a1, kv.1 ≠ "content") → r.description = v)) := by
  refine ⟨extract url doc, by simp [sendsOf_scrapePage, hret, hparse], ?_, ?_, ?_, ?_, ?_, ?_⟩
  · obtain ⟨pre, post, hsplit, hpre, hpost⟩ :=
      trimSpace_decompose (selectionText (findTag doc "title"))
    refine ⟨pre, post, ?_, hpre, hpost⟩
    rw [selectionText_data] at hsplit
    exact hsplit
  · intro c hc
    exact trimSpace_head _ c hc
  · intro c hc
    exact trimSpace_getLast _ c hc
  · intro hnone
    have hsel : findTag doc "title" = [] := by
      unfold findTag
      rw [List.filter_eq_nil_iff]
      intro e he htag
      exact hnone e he (by simpa using htag)
    simp only [extract, hsel]
    decide
  · intro hnone
    have hsel : findMetaDescription doc = [] := by
      unfold findMetaDescription
      rw [List.filter_eq_nil_iff]
      intro e he hmatch
      exact hnone e he ((isMetaDescription_iff e).1 hmatch)
    simp only [extract, hsel]
    rfl
  · intro before m after hdoc htag hname hbefore
    have hsel := findMetaDescription_first before after m ⟨htag, hname⟩ hbefore
    rw [← hdoc] at hsel
    constructor
    · intro hnone
      have hfind : m.attrs.find? (fun kv => kv.1 == "content") = none := by
        rw [List.find?_eq_none]
        intro kv hkv hkey
        exact hnone kv hkv (by simpa using hkey)
      simp only [extract, hsel, selectionAttr, hfind]
    · intro a1 v a2 hattrs hfirst
      have hfind : m.attrs.find? (fun kv => kv.1 == "content") = some ("content", v) := by
        have hnone : a1.find? (fun kv => kv.1 == "content") = none := by
          rw [List.find?_eq_none]
          intro kv hkv hkey
          exact hfirst kv hkv (by simpa using hkey)
        rw [hattrs, List.find?_append, hnone]
        simp
      simp only [extract, hsel, selectionAttr, hfind]

/-- C7, at three documents. With neither title nor `meta` the record is sent
with both fields empty. With the title text `"  Example \n"` the Title is
`Example`, and the Description is the `content` of the `meta` element. With
the titles `"One "` and `"Two"` and a first `meta` named `description` that has
no `content`, the Title is `One Two` and the Description is empty, a later
`meta` with a `content` notwithstanding. -/
theorem title_and_description_extracted_witness :
    (∃ r, sendsOf (scrapePage "http://example.com" recoversOnSecond parseBare) = [r] ∧
      r.title = "" ∧ r.description = "") ∧
    (∃ r, sendsOf (scrapePage "http://example.com" recoversOnSecond parsePadded) = [r] ∧
      r.title = "Example" ∧ r.description = "A sample page") ∧
    (∃ r, sendsOf (scrapePage "http://example.com" recoversOnSecond parseTwoTitles) = [r] ∧
      r.title = "One Two" ∧ r.description = "") := by
  obtain ⟨r, hsent, _, _, _, hnotitle, hnometa, _⟩ :=
    title_and_description_extracted "http://example.com" recoversOnSecond parseBare 2
      ⟨200, "<title>Example</title>"⟩ [⟨"p", [], "text"⟩] (by decide) rfl
  obtain ⟨q, hqsent, _, _, _, _, _, hqmeta⟩ :=
    title_and_description_extracted "http://example.com" recoversOnSecond parsePadded 2
      ⟨200, "<title>Example</title>"⟩ paddedDoc (by decide) rfl
  obtain ⟨t, htsent, _, _, _, _, _, htmeta⟩ :=
    title_and_description_extracted "http://example.com" recoversOnSecond parseTwoTitles 2
      ⟨200, "<title>Example</title>"⟩ twoTitlesDoc (by decide) rfl
  have hqval : sendsOf (scrapePage "http://example.com" recoversOnSecond parsePadded) =
      [⟨"http://example.com", "Example", "A sample page", []⟩] := by decide
  have htval : sendsOf (scrapePage "http://example.com" recoversOnSecond parseTwoTitles) =
      [⟨"http://example.com", "One Two", "", []⟩] := by decide
  refine ⟨⟨r, hsent, hnotitle (by decide), hnometa (by decide)⟩,
    ⟨q, hqsent, ?_, ?_⟩, ⟨t, htsent, ?_, ?_⟩⟩
  · rw [hqval] at hqsent
    simp only [List.cons.injEq, and_true] at hqsent
    rw [← hqsent]
  · exact (hqmeta [⟨"title", [], "  Example \n"⟩]
      ⟨"meta", [("name", "description"), ("content", "A sample page")], ""⟩ [] rfl rfl
      (by decide) (by decide)).2 [("name", "description")] "A sample page" [] rfl (by decide)
  · rw [htval] at htsent
    simp only [List.cons.injEq, and_true] at htsent
    rw [← htsent]
  · exact (htmeta [⟨"title", [], "One "⟩] ⟨"meta", [("name", "description")], ""⟩
      [⟨"title", [], "Two"⟩, ⟨"meta", [("name", "description"), ("content", "later")], ""⟩]
      rfl rfl (by decide) (by decide)).1 (by decide)

/-- C5, refuted at the line `a,,b`: the segments are `a`, the empty string and
`b`, and the loop launches a scraper goroutine for each of the three, the one
for the empty URL included, while only two segments are non-empty. -/
theorem dispatch_spawns_task_for_empty_segment :
    readURLs "a,,b\n" = .ok ["a", "", "b"] ∧
      dispatchedURLs ["a", "", "b"] = ["a", "", "b"] ∧
      (run (fun _ => unreachable) parseAsTitle [.main, .main, .main]
          (Sys.init ["a", "", "b"])).map (fun s => (s.tasks.length, s.wg, s.pending)) =
        some (3, 3, []) ∧
      ((dispatchedURLs ["a", "", "b"]).filter (fun u => u != "")).length = 2 :=
  ⟨rfl, by decide, by decide, by decide⟩

/-- C5, amended: for every input line that is not empty after trimming, main
launches exactly one scraper goroutine for every comma-separated segment of
the trimmed line, those empty after trimming included, each with its trimmed
segment as URL; the number of goroutines is the number of commas plus one. -/
theorem dispatch_spawns_one_task_per_segment (server : String → Nat → Outcome)
    (parse : String → Except String Document) (line : String)
    (hline : trimSpace line ≠ "") :
    readURLs line = .ok (splitComma (trimSpace line)) ∧
      (splitComma (trimSpace line)).length = (trimSpace line).data.count ',' + 1 ∧
      ∃ s, run server parse (List.replicate (splitComma (trimSpace line)).length .main)
            (Sys.init (splitComma (trimSpace line))) = some s ∧
        s.pending = [] ∧
        s.wg = (splitComma (trimSpace line)).length ∧
        s.tasks = (dispatchedURLs (splitComma (trimSpace line))).map
          (fun url => scrapePage url (server url) parse) := by
  refine ⟨by simp [readURLs, hline], by simp [splitComma, length_splitCommaChars], ?_⟩
  obtain ⟨t, hrun, _, hpend, hwg, htasks, _⟩ :=
    run_dispatch server parse (Sys.init (splitComma (trimSpace line))) rfl
  refine ⟨t, hrun, hpend, ?_, ?_⟩
  · simpa [Sys.init] using hwg
  · simpa [Sys.init, dispatchedURLs, List.map_map, Function.comp_def] using htasks

/-- C5, amended, at the line `a, ,b`: three goroutines, the second with the
empty URL. -/
theorem dispatch_spawns_one_task_per_segment_witness :
    readURLs " a, ,b\n" = .ok (splitComma (trimSpace " a, ,b\n")) ∧
      (splitComma (trimSpace " a, ,b\n")).length = (trimSpace " a, ,b\n").data.count ',' + 1 ∧
      ∃ s, run (fun _ => unreachable) parseAsTitle
            (List.replicate (splitComma (trimSpace " a, ,b\n")).length .main)
            (Sys.init (splitComma (trimSpace " a, ,b\n"))) = some s ∧
        s.pending = [] ∧
        s.wg = (splitComma (trimSpace " a, ,b\n")).length ∧
        s.tasks = (dispatchedURLs (splitComma (trimSpace " a, ,b\n"))).map
          (fun url => scrapePage url ((fun _ => unreachable) url) parseAsTitle) :=
  dispatch_spawns_one_task_per_segment (fun _ => unreachable) parseAsTitle " a, ,b\n"
    (by decide)

/-! ## An invariant of the goroutines -/

theorem get?_split (tasks : List (List Event)) (k : Nat) (t new : List Event)
    (h : tasks[k]? = some t) :
    ∃ pre post, tasks = pre ++ t :: post ∧ tasks.set k new = pre ++ new :: post := by
  induction tasks generalizing k with
  | nil => simp at h
  | cons x xs ih =>
    cases k with
    | zero =>
      simp only [List.getElem?_cons_zero, Option.some.injEq] at h
      subst h
      exact ⟨[], xs, rfl, rfl⟩
    | succ k =>
      simp only [List.getElem?_cons_succ] at h
      obtain ⟨pre, post, hxs, hset⟩ := ih k h
      exact ⟨x :: pre, post, by simp [hxs], by simp [hset]⟩

theorem donesLeft_split (pre post : List (List Event)) (t : List Event) :
    donesLeft (pre ++ t :: post) = donesLeft pre + t.count .wgDone + donesLeft post := by
  simp [donesLeft, Nat.add_assoc]

theorem emittedBy_cons (server : String → Nat → Outcome)
    (parse : String → Except String Document) (url : String) (rest : List String) :
    emittedBy server parse (url :: rest) =
      sendsOf (scrapePage (trimSpace url) (server (trimSpace url)) parse) ++
        emittedBy server parse rest := by
  simp [emittedBy, dispatchedURLs]

/-- A scraper with no call of `wg.Done()` to come has ended. -/
theorem ended_of_no_done (t : List Event)
    (hend : t = [] ∨ t.getLast? = some .wgDone) (hcount : t.count .wgDone = 0) : t = [] := by
  rcases hend with h | h
  · exact h
  · have hmem := List.mem_of_getLast?_eq_some h
    have := List.count_pos_iff.2 hmem
    omega

theorem all_ended_of_donesLeft_zero (tasks : List (List Event))
    (hends : ∀ t ∈ tasks, t = [] ∨ t.getLast? = some .wgDone)
    (hzero : donesLeft tasks = 0) : ∀ t ∈ tasks, t = [] := by
  intro t ht
  apply ended_of_no_done t (hends t ht)
  have hle := List.single_le_sum (fun _ _ => Nat.zero_le _)
    (t.count .wgDone) (List.mem_map_of_mem (fun t => t.count Event.wgDone) ht)
  unfold donesLeft at hzero
  omega

theorem Inv.init (server : String → Nat → Outcome) (parse : String → Except String Document)
    (urls : List String) : Inv server parse urls (Sys.init urls) where
  conserve := by simp [inFlight, Sys.init, CollectorPc.held]
  ends := by simp [Sys.init]
  counter := by simp [Sys.init, donesLeft]
  drained := by simp [Sys.init]
  read := by simp [Sys.init]

theorem stepMain_inv (server : String → Nat → Outcome)
    (parse : String → Except String Document) (urls : List String) (s t : Sys)
    (hinv : Inv server parse urls s) (hstep : stepMain server parse s = some t) :
    Inv server parse urls t := by
  obtain ⟨pc, pending, tasks, wg, closed, coll, results, written⟩ := s
  obtain ⟨hcons, hends, hcount, hdrained, hread⟩ := hinv
  simp only at hcons hends hcount hdrained hread
  cases pc with
  | dispatch =>
    have hnone : written = none := by
      cases written with
      | none => rfl
      | some w => exact absurd (hread w rfl).1 (by simp)
    cases pending with
    | cons url rest =>
      simp only [stepMain, Option.some.injEq] at hstep
      subst hstep
      refine ⟨?_, ?_, ?_, ?_, ?_⟩
      · simpa [inFlight, emittedBy_cons] using hcons
      · intro x hx
        simp only [List.mem_append, List.mem_singleton] at hx
        rcases hx with hx | hx
        · exact hends x hx
        · exact Or.inr (hx ▸ (wgDone_scrapePage _ _ _).1)
      · simp only [donesLeft, List.map_append, List.sum_append, List.map_cons, List.map_nil,
          List.sum_cons, List.sum_nil, (wgDone_scrapePage _ _ _).2]
        simp only [donesLeft] at hcount
        omega
      · intro hne
        exact absurd rfl hne
      · intro w hw
        simp [hnone] at hw
    | nil =>
      simp only [stepMain] at hstep
      split at hstep
      · rename_i hzero
        simp only [Option.some.injEq] at hstep
        subst hstep
        refine ⟨hcons, hends, hcount, ?_, ?_⟩
        · intro _
          exact ⟨rfl, all_ended_of_donesLeft_zero tasks hends (by omega)⟩
        · intro w hw
          simp [hnone] at hw
      · cases hstep
  | close =>
    have hnone : written = none := by
      cases written with
      | none => rfl
      | some w => exact absurd (hread w rfl).1 (by simp)
    simp only [stepMain, Option.some.injEq] at hstep
    subst hstep
    refine ⟨hcons, hends, hcount, fun _ => hdrained (by simp), ?_⟩
    intro w hw
    simp [hnone] at hw
  | write =>
    simp only [stepMain, Option.some.injEq] at hstep
    subst hstep
    obtain ⟨hpend, hall⟩ := hdrained (by simp)
    refine ⟨hcons, hends, hcount, fun _ => ⟨hpend, hall⟩, ?_⟩
    intro w hw
    simp only [Option.some.injEq] at hw
    subst hw
    refine ⟨rfl, List.prefix_refl _, ?_⟩
    have hflat : tasks.flatMap sendsOf = [] := by
      rw [List.flatMap_eq_nil_iff]
      intro x hx
      rw [hall x hx]
      rfl
    have hlen := hcons.length_eq
    simp only [inFlight, hflat, hpend, emittedBy, dispatchedURLs, List.map_nil,
      List.flatMap_nil, List.append_nil, List.length_append] at hlen
    have hheld : coll.held.length ≤ 1 := by
      cases coll <;> simp [CollectorPc.held]
    simp only [emittedBy, dispatchedURLs]
    omega
  | finished => simp [stepMain] at hstep

theorem stepCollector_inv (server : String → Nat → Outcome)
    (parse : String → Except String Document) (urls : List String) (s t : Sys)
    (hinv : Inv server parse urls s) (hstep : stepCollector s = some t) :
    Inv server parse urls t := by
  obtain ⟨pc, pending, tasks, wg, closed, coll, results, written⟩ := s
  obtain ⟨hcons, hends, hcount, hdrained, hread⟩ := hinv
  simp only at hcons hends hcount hdrained hread
  cases coll with
  | holding r =>
    simp only [stepCollector, Option.some.injEq] at hstep
    subst hstep
    refine ⟨?_, hends, hcount, hdrained, ?_⟩
    · simpa [inFlight, CollectorPc.held] using hcons
    · intro w hw
      obtain ⟨hpc, hpre, hlen⟩ := hread w hw
      exact ⟨hpc, hpre.trans (List.prefix_append _ _), hlen⟩
  | receiving =>
    simp only [stepCollector] at hstep
    split at hstep
    · simp only [Option.some.injEq] at hstep
      subst hstep
      exact ⟨by simpa [inFlight, CollectorPc.held] using hcons, hends, hcount, hdrained, hread⟩
    · cases hstep
  | exited => simp [stepCollector] at hstep

/-- A step of a scraper on an event that is neither a send nor `wg.Done()`. -/
theorem localStep_inv (server : String → Nat → Outcome)
    (parse : String → Except String Document) (urls : List String) (s : Sys) (k : Nat)
    (e : Event) (es : List Event) (hinv : Inv server parse urls s)
    (hget : s.tasks[k]? = some (e :: es))
    (hsend : sendsOf (e :: es) = sendsOf es) (hdone : e ≠ .wgDone) :
    Inv server parse urls { s with tasks := s.tasks.set k es } := by
  obtain ⟨pc, pending, tasks, wg, closed, coll, results, written⟩ := s
  obtain ⟨hcons, hends, hcount, hdrained, hread⟩ := hinv
  simp only at hcons hends hcount hdrained hread hget
  obtain ⟨pre, post, htasks, hset⟩ := get?_split tasks k (e :: es) es hget
  simp only [hset]
  subst htasks
  have hlast : es = [] ∨ es.getLast? = some .wgDone := by
    cases es with
    | nil => exact Or.inl rfl
    | cons x xs =>
      rcases hends (e :: x :: xs) (by simp) with h | h
      · cases h
      · exact Or.inr (by simpa using h)
  refine ⟨?_, ?_, ?_, ?_, hread⟩
  · simpa [inFlight, hsend] using hcons
  · intro x hx
    simp only [List.mem_append, List.mem_cons] at hx
    rcases hx with hx | hx | hx
    · exact hends x (by simp [hx])
    · exact hx ▸ hlast
    · exact hends x (by simp [hx])
  · simp only [donesLeft_split] at hcount ⊢
    have : (e :: es).count .wgDone = es.count .wgDone := by
      rw [List.count_cons]
      simp [hdone]
    omega
  · intro hne
    have := (hdrained hne).2 (e :: es) (by simp)
    cases this

theorem stepTask_inv (server : String → Nat → Outcome)
    (parse : String → Except String Document) (urls : List String) (k : Nat) (s t : Sys)
    (hinv : Inv server parse urls s) (hstep : stepTask k s = some t) :
    Inv server parse urls t := by
  unfold stepTask at hstep
  cases hget : s.tasks[k]? with
  | none => simp [hget] at hstep
  | some evs =>
    cases evs with
    | nil => simp [hget] at hstep
    | cons e es =>
      cases e with
      | get i u o =>
        simp only [hget, Option.some.injEq] at hstep
        subst hstep
        exact localStep_inv server parse urls s k _ es hinv hget rfl (by simp)
      | logLine l =>
        simp only [hget, Option.some.injEq] at hstep
        subst hstep
        exact localStep_inv server parse urls s k _ es hinv hget rfl (by simp)
      | closeBody i =>
        simp only [hget, Option.some.injEq] at hstep
        subst hstep
        exact localStep_inv server parse urls s k _ es hinv hget rfl (by simp)
      | sleep n =>
        simp only [hget, Option.some.injEq] at hstep
        subst hstep
        exact localStep_inv server parse urls s k _ es hinv hget rfl (by simp)
      | send r =>
        simp only [hget] at hstep
        split at hstep
        · rename_i hready
          simp only [Option.some.injEq] at hstep
          subst hstep
          obtain ⟨pc, pending, tasks, wg, closed, coll, results, written⟩ := s
          obtain ⟨hcons, hends, hcount, hdrained, hread⟩ := hinv
          simp only at hcons hends hcount hdrained hread hget hready
          obtain ⟨hcoll, _⟩ := hready
          subst hcoll
          obtain ⟨pre, post, htasks, hset⟩ := get?_split tasks k (.send r :: es) es hget
          simp only [hset]
          subst htasks
          have hlast : es = [] ∨ es.getLast? = some .wgDone := by
            cases es with
            | nil => exact Or.inl rfl
            | cons x xs =>
              rcases hends (.send r :: x :: xs) (by simp) with h | h
              · cases h
              · exact Or.inr (by simpa using h)
          refine ⟨?_, ?_, ?_, ?_, hread⟩
          · refine List.Perm.trans ?_ hcons
            simp only [inFlight, CollectorPc.held, List.flatMap_append,
              List.flatMap_cons, sendsOf, List.append_nil, List.nil_append, List.append_assoc,
              List.singleton_append, List.cons_append]
            exact List.Perm.append_left _ List.perm_middle.symm
          · intro x hx
            simp only [List.mem_append, List.mem_cons] at hx
            rcases hx with hx | hx | hx
            · exact hends x (by simp [hx])
            · exact hx ▸ hlast
            · exact hends x (by simp [hx])
          · simp only [donesLeft_split] at hcount ⊢
            have : (Event.send r :: es).count .wgDone = es.count .wgDone := by
              rw [List.count_cons]
              simp
            omega
          · intro hne
            have := (hdrained hne).2 (.send r :: es) (by simp)
            cases this
        · cases hstep
      | wgDone =>
        simp only [hget, Option.some.injEq] at hstep
        subst hstep
        obtain ⟨pc, pending, tasks, wg, closed, coll, results, written⟩ := s
        obtain ⟨hcons, hends, hcount, hdrained, hread⟩ := hinv
        simp only at hcons hends hcount hdrained hread hget
        obtain ⟨pre, post, htasks, hset⟩ := get?_split tasks k (.wgDone :: es) es hget
        simp only [hset]
        subst htasks
        have hlast : es = [] ∨ es.getLast? = some .wgDone := by
          cases es with
          | nil => exact Or.inl rfl
          | cons x xs =>
            rcases hends (.wgDone :: x :: xs) (by simp) with h | h
            · cases h
            · exact Or.inr (by simpa using h)
        refine ⟨?_, ?_, ?_, ?_, hread⟩
        · simpa [inFlight, sendsOf] using hcons
        · intro x hx
          simp only [List.mem_append, List.mem_cons] at hx
          rcases hx with hx | hx | hx
          · exact hends x (by simp [hx])
          · exact hx ▸ hlast
          · exact hends x (by simp [hx])
        · simp only [donesLeft_split] at hcount ⊢
          have : (Event.wgDone :: es).count .wgDone = es.count .wgDone + 1 := by
            rw [List.count_cons]
            simp
          omega
        · intro hne
          have := (hdrained hne).2 (.wgDone :: es) (by simp)
          cases this

/-- Every state the program reaches satisfies the invariant. -/
theorem run_inv (server : String → Nat → Outcome) (parse : String → Except String Document)
    (urls : List String) (schedule : List Actor) (s t : Sys)
    (hinv : Inv server parse urls s) (hrun : run server parse schedule s = some t) :
    Inv server parse urls t := by
  induction schedule generalizing s with
  | nil =>
    simp only [run, Option.some.injEq] at hrun
    exact hrun ▸ hinv
  | cons a rest ih =>
    simp only [run] at hrun
    cases hstep : step server parse a s with
    | none => simp [hstep] at hrun
    | some mid =>
      rw [hstep] at hrun
      refine ih mid ?_ hrun
      cases a with
      | main => exact stepMain_inv server parse urls s mid hinv hstep
      | collector => exact stepCollector_inv server parse urls s mid hinv hstep
      | task k => exact stepTask_inv server parse urls k s mid hinv hstep

/-- Whatever the interleaving: the slice main hands to the writer is a prefix of
`results` and lacks at most one of the records sent; and once the collector
has left its loop, `results` is a permutation of the records sent. -/
theorem written_lacks_at_most_one (server : String → Nat → Outcome)
    (parse : String → Except String Document) (urls : List String) (schedule : List Actor)
    (s : Sys) (w : List ScrapeResult)
    (hrun : run server parse schedule (Sys.init urls) = some s)
    (hwritten : s.written = some w) :
    w <+: s.results ∧
      (emittedBy server parse urls).length ≤ w.length + 1 ∧
      (s.results ++ s.collector.held).Perm (emittedBy server parse urls) := by
  have hinv := run_inv server parse urls schedule _ s (Inv.init server parse urls) hrun
  obtain ⟨hpc, hpre, hlen⟩ := hinv.read w hwritten
  obtain ⟨hpend, hall⟩ := hinv.drained (by simp [hpc])
  refine ⟨hpre, hlen, ?_⟩
  have hflat : s.tasks.flatMap sendsOf = [] := by
    rw [List.flatMap_eq_nil_iff]
    intro x hx
    rw [hall x hx]
    rfl
  have := hinv.conserve
  simpa [inFlight, hflat, hpend, emittedBy, dispatchedURLs] using this

/-! ## The collector and the read of main -/

/-- The collector loop leaves the records in their order of arrival. -/
theorem collect_eq (arrivals : List ScrapeResult) : collect arrivals = arrivals := by
  have h : ∀ init : List ScrapeResult,
      arrivals.foldl (fun results result => results ++ [result]) init = init ++ arrivals := by
    induction arrivals with
    | nil => simp
    | cons r rs ih =>
      intro init
      simp [ih]
  simpa [collect] using h []

/-- Two orders of arrival of the same records leave slices that are
permutations of each other, once the collector has appended every record. -/
theorem collect_perm (first second : List ScrapeResult) (h : first.Perm second) :
    (collect first).Perm (collect second) := by
  simpa [collect_eq] using h

/-- C4, at the batch `a,b,c` where `b` always answers 500 and `a` and `c` answer
200: two scrapers send a record, and under `lateCollectorSchedule` main hands
`writeResultsToJSONFile` a slice with one entry, the record of `c` being
appended to `results` only after the read. -/
theorem main_reads_results_before_last_append :
    emittedBy batchServer parseAsTitle ["a", "b", "c"] =
        [⟨"a", "a", "", []⟩, ⟨"c", "c", "", []⟩] ∧
      (run batchServer parseAsTitle lateCollectorSchedule (Sys.init ["a", "b", "c"])).map
          (fun s => (s.mainPc, s.written, s.results, s.collector, s.wg)) =
        some (.finished, some [⟨"a", "a", "", []⟩],
          [⟨"a", "a", "", []⟩, ⟨"c", "c", "", []⟩], .exited, 0) ∧
      (run batchServer parseAsTitle promptCollectorSchedule (Sys.init ["a", "b", "c"])).map
          (fun s => (s.mainPc, s.written, s.results, s.collector, s.wg)) =
        some (.finished, some [⟨"a", "a", "", []⟩, ⟨"c", "c", "", []⟩],
          [⟨"a", "a", "", []⟩, ⟨"c", "c", "", []⟩], .exited, 0) :=
  ⟨by decide, by decide, by decide⟩

/-- C8, at the batch `a,c` where both URLs answer 200, run twice with the same
responses: when `c` completes first and the collector is prompt, main hands
the writer the records of `c` and `a`; when `a` completes first and the
collector is late, it hands the writer the record of `a` alone; the two slices
are not permutations of each other. -/
theorem written_depends_on_schedule :
    (run batchServer parseAsTitle secondFirstSchedule (Sys.init ["a", "c"])).map
        (fun s => (s.mainPc, s.written)) =
      some (.finished, some [⟨"c", "c", "", []⟩, ⟨"a", "a", "", []⟩]) ∧
    (run batchServer parseAsTitle firstFirstLateSchedule (Sys.init ["a", "c"])).map
        (fun s => (s.mainPc, s.written)) =
      some (.finished, some [⟨"a", "a", "", []⟩]) ∧
    ¬ List.Perm [(⟨"c", "c", "", []⟩ : ScrapeResult), ⟨"a", "a", "", []⟩]
        [⟨"a", "a", "", []⟩] :=
  ⟨by decide, by decide, fun h => absurd h.length_eq (by decide)⟩

end Scraper
